import Mathlib

/-!
# Verification of the DV-Mathematics hypercomplex algebra tower

Shallow embedding, over exact rationals, of the Cayley-Dickson algebra
implementations of the repository:

* `Quaternion`, `Octonion`, `DV16` embed the classes of `src/dv16/dv16.py`
  (the validated sedenion engine, built by Cayley-Dickson doubling);
* `DV2`, `DV4`, `DV8` embed the hand-unrolled engines of
  `src/DV_extensions/dv_core.py`, with `DV8` using the structure-table
  multiplication driven by `OCT_TABLE`.

The Python code computes with floats / 50-digit decimals; all the inputs of
the claims are small rationals, on which the arithmetic is exact, so the
embedding uses `ℚ`.  Norms are handled through the squared Euclidean norm
`normSq` (the code's `norm_sq`): for thresholds `t ≥ 0` one has
`‖x‖ < t ↔ normSq x < t²` and `‖x‖ > t ↔ normSq x > t²`, and
`‖A·B‖ = ‖A‖·‖B‖ ↔ normSq (A·B) = normSq A * normSq B`, so every claim about
`norm` is stated faithfully through `normSq`.
-/

/-- `Quaternion` of `src/dv16/dv16.py`: four scalar components `w x y z`. -/
@[ext]
structure Quat where
  w : ℚ
  x : ℚ
  y : ℚ
  z : ℚ
  deriving DecidableEq

namespace Quat

/-- Componentwise addition (`Quaternion.__add__`). -/
def add (p q : Quat) : Quat :=
  ⟨p.w + q.w, p.x + q.x, p.y + q.y, p.z + q.z⟩

/-- Componentwise subtraction (`Quaternion.__sub__`). -/
def sub (p q : Quat) : Quat :=
  ⟨p.w - q.w, p.x - q.x, p.y - q.y, p.z - q.z⟩

/-- Hamilton multiplication (`Quaternion.__mul__`). -/
def mul (p q : Quat) : Quat :=
  ⟨p.w * q.w - p.x * q.x - p.y * q.y - p.z * q.z,
   p.w * q.x + p.x * q.w + p.y * q.z - p.z * q.y,
   p.w * q.y - p.x * q.z + p.y * q.w + p.z * q.x,
   p.w * q.z + p.x * q.y - p.y * q.x + p.z * q.w⟩

/-- Quaternion conjugate (`Quaternion.conjugate`). -/
def conjugate (p : Quat) : Quat := ⟨p.w, -p.x, -p.y, -p.z⟩

/-- Componentwise negation (used for the `-b` half of octonion conjugation). -/
def neg (p : Quat) : Quat := ⟨-p.w, -p.x, -p.y, -p.z⟩

/-- Componentwise division by a scalar (the `c / norm_sq` loops). -/
def divScalar (p : Quat) (t : ℚ) : Quat := ⟨p.w / t, p.x / t, p.y / t, p.z / t⟩

/-- Sum of the squares of the four components. -/
def normSq (p : Quat) : ℚ := p.w ^ 2 + p.x ^ 2 + p.y ^ 2 + p.z ^ 2

end Quat

/-- `Octonion` of `src/dv16/dv16.py`: an ordered pair of quaternions,
`a = components[0:4]`, `b = components[4:8]`. -/
@[ext]
structure Octo where
  a : Quat
  b : Quat
  deriving DecidableEq

namespace Octo

/-- Componentwise addition (`Octonion.__add__`). -/
def add (p q : Octo) : Octo := ⟨p.a.add q.a, p.b.add q.b⟩

/-- Componentwise subtraction (`Octonion.__sub__`). -/
def sub (p q : Octo) : Octo := ⟨p.a.sub q.a, p.b.sub q.b⟩

/-- Octonion conjugate `(a, b)* = (a*, -b)` (`Octonion.conjugate`). -/
def conjugate (p : Octo) : Octo := ⟨p.a.conjugate, p.b.neg⟩

/-- Cayley-Dickson multiplication `(a, b) × (c, d) = (ac - d*b, da + bc*)`
(`Octonion.__mul__`): `part1 = a·c - conj(d)·b`, `part2 = d·a + b·conj(c)`. -/
def mul (p q : Octo) : Octo :=
  ⟨(p.a.mul q.a).sub ((q.b.conjugate).mul p.b),
   (q.b.mul p.a).add (p.b.mul (q.a.conjugate))⟩

/-- Componentwise negation. -/
def neg (p : Octo) : Octo := ⟨p.a.neg, p.b.neg⟩

/-- Componentwise division by a scalar. -/
def divScalar (p : Octo) (t : ℚ) : Octo := ⟨p.a.divScalar t, p.b.divScalar t⟩

/-- Sum of the squares of the eight components. -/
def normSq (p : Octo) : ℚ := p.a.normSq + p.b.normSq

/-- The imaginary basis unit `e₁` of the octonion algebra
(`Octonion([0, 1, 0, 0, 0, 0, 0, 0])` in `DV16.asto5`). -/
def e1 : Octo := ⟨⟨0, 1, 0, 0⟩, ⟨0, 0, 0, 0⟩⟩

/-- The zero octonion. -/
def zero : Octo := ⟨⟨0, 0, 0, 0⟩, ⟨0, 0, 0, 0⟩⟩

end Octo

/-- `DV16` of `src/dv16/dv16.py`: a sedenion, i.e. an ordered pair of
octonions, `a = components[0:8]`, `b = components[8:16]`. -/
@[ext]
structure DV16 where
  a : Octo
  b : Octo
  deriving DecidableEq

namespace DV16

/-- Componentwise addition (`DV16.__add__`). -/
def add (p q : DV16) : DV16 := ⟨p.a.add q.a, p.b.add q.b⟩

/-- Componentwise subtraction (`DV16.__sub__`). -/
def sub (p q : DV16) : DV16 := ⟨p.a.sub q.a, p.b.sub q.b⟩

/-- Additive inverse (`DV16.__neg__`). -/
def neg (p : DV16) : DV16 := ⟨p.a.neg, p.b.neg⟩

/-- Cayley-Dickson multiplication for sedenions
`(a, b) × (c, d) = (ac - d*b, da + bc*)` (`DV16.__mul__`). -/
def mul (p q : DV16) : DV16 :=
  ⟨(p.a.mul q.a).sub ((q.b.conjugate).mul p.b),
   (q.b.mul p.a).add (p.b.mul (q.a.conjugate))⟩

/-- Sedenion conjugate `(a, b)* = (a*, -b)` (`DV16.conjugate`). -/
def conjugate (p : DV16) : DV16 := ⟨p.a.conjugate, p.b.neg⟩

/-- Squared Euclidean norm over the 16 components (`DV16.norm_sq`). -/
def normSq (p : DV16) : ℚ := p.a.normSq + p.b.normSq

/-- Componentwise division by a scalar (`[c / other for c in components]`
and the `c / norm_sq` loop of `inverse`). -/
def divScalar (p : DV16) (t : ℚ) : DV16 := ⟨p.a.divScalar t, p.b.divScalar t⟩

/-- `DV16.is_zero`: squared norm below the fixed `1e-20` threshold. -/
def IsZero (p : DV16) : Prop := p.normSq < 1 / 10 ^ 20

instance (p : DV16) : Decidable p.IsZero := by unfold IsZero; infer_instance

/-- Value computed by `DV16.inverse` when it does not raise:
`A* / ‖A‖²` componentwise. -/
def inverse (p : DV16) : DV16 := p.conjugate.divScalar p.normSq

/-- `DV16.inverse` as a fallible function: `raise ValueError` when
`norm_sq < 1e-20`, the quotient `A* / ‖A‖²` otherwise. -/
def inverseChecked (p : DV16) : Option DV16 :=
  if p.normSq < 1 / 10 ^ 20 then none else some p.inverse

/-- `DV16.asto5`: ASTO₅ applies STO only to the first octonion half,
`ASTO₅(a, b) = (e₁ × a, b)` with left multiplication. -/
def asto5 (p : DV16) : DV16 := ⟨Octo.e1.mul p.a, p.b⟩

/-- `DV16.__truediv__` on a `DV16` divisor: fallback to `asto5` when the
divisor is the (numerical) zero vector or its inverse raises, and when the
naive quotient collapses to zero while the dividend is nonzero, the
S-Algebra protocol `asto5(A) × B⁻¹`. -/
def truediv (p q : DV16) : DV16 :=
  if q.IsZero then p.asto5
  else
    match q.inverseChecked with
    | none => p.asto5
    | some invB =>
      let result := p.mul invB
      if result.IsZero ∧ ¬ p.IsZero then (p.asto5).mul invB else result

/-- `DV16.__truediv__` on an `int`/`float` divisor: `asto5` fallback when
`|other| < 1e-10`, componentwise division otherwise. -/
def truedivScalar (p : DV16) (s : ℚ) : DV16 :=
  if |s| < 1 / 10 ^ 10 then p.asto5 else p.divScalar s

/-- Build a sedenion from its 16 scalar components in order. -/
def ofComponents (f : Fin 16 → ℚ) : DV16 :=
  ⟨⟨⟨f 0, f 1, f 2, f 3⟩, ⟨f 4, f 5, f 6, f 7⟩⟩,
   ⟨⟨f 8, f 9, f 10, f 11⟩, ⟨f 12, f 13, f 14, f 15⟩⟩⟩

/-- The zero sedenion. -/
def zero : DV16 := ⟨Octo.zero, Octo.zero⟩

/-- The multiplicative identity `(1, 0, ..., 0)` (`DV16.one` of
`src/dv16/sedenion.py`). -/
def one : DV16 := ⟨⟨⟨1, 0, 0, 0⟩, ⟨0, 0, 0, 0⟩⟩, Octo.zero⟩

/-- The sedenion `(t, 0, ..., 0)` with scalar part `t`. -/
def scalar (t : ℚ) : DV16 :=
  ⟨⟨⟨t, 0, 0, 0⟩, ⟨0, 0, 0, 0⟩⟩, Octo.zero⟩

end DV16

/-- Basis vector `eᵢ` (`def e(i)` of `src/dv16/dv16.py`). -/
def e (i : Fin 16) : DV16 :=
  DV16.ofComponents (fun j => if j = i then 1 else 0)

/-- The canonical zero-divisor pair, first member: `A = e₁ + e₁₀`. -/
def Azd : DV16 := (e 1).add (e 10)

/-- The canonical zero-divisor pair, second member: `B = e₅ + e₁₄`. -/
def Bzd : DV16 := (e 5).add (e 14)

/-- `DV2` of `src/DV_extensions/dv_core.py`: components `(v, d)`. -/
@[ext]
structure DV2 where
  v : ℚ
  d : ℚ
  deriving DecidableEq

namespace DV2

/-- `DV2.__mul__` on a `DV2` argument. -/
def mul (p q : DV2) : DV2 :=
  ⟨p.v * q.v - p.d * q.d, p.v * q.d + p.d * q.v⟩

/-- `DV2.conjugate`. -/
def conjugate (p : DV2) : DV2 := ⟨p.v, -p.d⟩

/-- Squared Euclidean norm (`np.linalg.norm` squared). -/
def normSq (p : DV2) : ℚ := p.v ^ 2 + p.d ^ 2

/-- `DV2.__mul__` on a scalar argument (`components * other`). -/
def smul (p : DV2) (t : ℚ) : DV2 := ⟨p.v * t, p.d * t⟩

/-- Value computed by `DV2.inverse` when it does not raise:
`conjugate * (1 / n2)`. -/
def inverse (p : DV2) : DV2 := p.conjugate.smul (1 / p.normSq)

/-- `DV2.inverse` as a fallible function: `np.isclose(n2, 0, atol=1e-30)`
(i.e. `n2 ≤ 1e-30`, the squared norm being non-negative) raises. -/
def inverseChecked (p : DV2) : Option DV2 :=
  if p.normSq ≤ 1 / 10 ^ 30 then none else some p.inverse

/-- The zero vector `dv2_zero()`. -/
def zero : DV2 := ⟨0, 0⟩

/-- The multiplicative identity `(1, 0)`. -/
def one : DV2 := ⟨1, 0⟩

/-- The vector `(t, 0)` with scalar part `t`. -/
def scalar (t : ℚ) : DV2 := ⟨t, 0⟩

end DV2

/-- `DV4` of `src/DV_extensions/dv_core.py`: components `(v, d1, d2, d3)`. -/
@[ext]
structure DV4 where
  v : ℚ
  d1 : ℚ
  d2 : ℚ
  d3 : ℚ
  deriving DecidableEq

namespace DV4

/-- `DV4.__mul__` on a `DV4` argument (Hamilton product, hand-unrolled). -/
def mul (p q : DV4) : DV4 :=
  ⟨p.v * q.v - p.d1 * q.d1 - p.d2 * q.d2 - p.d3 * q.d3,
   p.v * q.d1 + p.d1 * q.v + p.d2 * q.d3 - p.d3 * q.d2,
   p.v * q.d2 - p.d1 * q.d3 + p.d2 * q.v + p.d3 * q.d1,
   p.v * q.d3 + p.d1 * q.d2 - p.d2 * q.d1 + p.d3 * q.v⟩

/-- `DV4.conjugate`. -/
def conjugate (p : DV4) : DV4 := ⟨p.v, -p.d1, -p.d2, -p.d3⟩

/-- Squared Euclidean norm. -/
def normSq (p : DV4) : ℚ := p.v ^ 2 + p.d1 ^ 2 + p.d2 ^ 2 + p.d3 ^ 2

/-- `DV4.__mul__` on a scalar argument. -/
def smul (p : DV4) (t : ℚ) : DV4 := ⟨p.v * t, p.d1 * t, p.d2 * t, p.d3 * t⟩

/-- Value computed by `DV4.inverse` when it does not raise. -/
def inverse (p : DV4) : DV4 := p.conjugate.smul (1 / p.normSq)

/-- The zero vector `dv4_zero()`. -/
def zero : DV4 := ⟨0, 0, 0, 0⟩

/-- The multiplicative identity `(1, 0, 0, 0)`. -/
def one : DV4 := ⟨1, 0, 0, 0⟩

/-- The vector `(t, 0, 0, 0)` with scalar part `t`. -/
def scalar (t : ℚ) : DV4 := ⟨t, 0, 0, 0⟩

end DV4

/-- `OCT_TABLE` of `src/DV_extensions/dv_core.py`: signed octonion structure
table; entry `(i, j)` encodes `eᵢ·eⱼ = sign · e_{abs}`. -/
def octTable : Fin 8 → Fin 8 → ℤ :=
  ![![0, 1, 2, 3, 4, 5, 6, 7],
    ![1, 0, 3, -2, 5, -4, -7, 6],
    ![2, -3, 0, 1, 6, 7, -4, -5],
    ![3, 2, -1, 0, 7, -6, 5, -4],
    ![4, -5, -6, -7, 0, 1, 2, 3],
    ![5, 4, -7, 6, -1, 0, -3, 2],
    ![6, 7, 4, -5, -2, 3, 0, -1],
    ![7, -6, 5, 4, -3, -2, 1, 0]]

/-- `DV8` of `src/DV_extensions/dv_core.py`: eight components indexed 0-7. -/
@[ext]
structure DV8 where
  c : Fin 8 → ℚ

instance : DecidableEq DV8 := fun p q =>
  decidable_of_iff (p.c = q.c) ⟨fun h => by cases p; cases q; simpa using h,
    fun h => by rw [h]⟩

namespace DV8

/-- `DV8.__mul__` on a `DV8` argument, via the structure table:
`result[0] = a0·b0 − a[1:]·b[1:]`; `result[k] += a0·b[k] + b0·a[k]` for
`k ≥ 1`; and for every `i ≠ j` with `i, j ≥ 1`, the cross term
`sign(OCT_TABLE[i,j]) · a[i] · b[j]` accumulates into component
`abs(OCT_TABLE[i,j])`. -/
def mul (p q : DV8) : DV8 :=
  ⟨fun k =>
    (if k = 0 then
      p.c 0 * q.c 0 - ∑ i : Fin 8, (if i = 0 then 0 else p.c i * q.c i)
     else
      p.c 0 * q.c k + q.c 0 * p.c k) +
    ∑ i : Fin 8, ∑ j : Fin 8,
      (if i ≠ 0 ∧ j ≠ 0 ∧ i ≠ j ∧ (octTable i j).natAbs = k.val then
        ((octTable i j).sign : ℚ) * p.c i * q.c j
       else 0)⟩

/-- `DV8.conjugate`. -/
def conjugate (p : DV8) : DV8 := ⟨fun k => if k = 0 then p.c 0 else -p.c k⟩

/-- Squared Euclidean norm. -/
def normSq (p : DV8) : ℚ := ∑ i : Fin 8, p.c i ^ 2

/-- `DV8.__mul__` on a scalar argument. -/
def smul (p : DV8) (t : ℚ) : DV8 := ⟨fun k => p.c k * t⟩

/-- Value computed by `DV8.inverse` when it does not raise. -/
def inverse (p : DV8) : DV8 := p.conjugate.smul (1 / p.normSq)

/-- The zero vector `dv8_zero()`. -/
def zero : DV8 := ⟨fun _ => 0⟩

/-- The multiplicative identity `(1, 0, ..., 0)`. -/
def one : DV8 := ⟨fun k => if k = 0 then 1 else 0⟩

/-- The vector `(t, 0, ..., 0)` with scalar part `t`. -/
def scalar (t : ℚ) : DV8 := ⟨fun k => if k = 0 then t else 0⟩

end DV8

/-- The eight ordered scalar components of an `Octonion`
(`[a.w, a.x, a.y, a.z, b.w, b.x, b.y, b.z]`), as a `DV8` vector, for
comparing the recursive Cayley-Dickson engine with the table engine. -/
def Octo.toDV8 (p : Octo) : DV8 :=
  ⟨fun k =>
    if k = 0 then p.a.w else if k = 1 then p.a.x else if k = 2 then p.a.y
    else if k = 3 then p.a.z else if k = 4 then p.b.w else if k = 5 then p.b.x
    else if k = 6 then p.b.y else p.b.z⟩

/-- Outcome label of the adaptive ASTO resolution policy (the spec's method
strings "A" / "B" / "FAIL"). -/
inductive AstoMethod where
  | methodA : AstoMethod
  | methodB : AstoMethod
  | methodFail : AstoMethod
  deriving DecidableEq

/-- Modelled from the spec: `resolveZeroDivisor(A, B) -> (A', B', method)`
(§4.2 adaptive resolution policy, §6 ASTO API) is not implemented under
`src/` — only `asto5` and the algebra products are.  Step 1: if
`ASTO_left(A) · B` has norm above the tolerance (here the absolute `0.1`
regime of §8, i.e. squared norm above `0.01`), succeed with method "A";
step 2: else try `A · ASTO_left(B)` for method "B"; step 3: else fail. -/
def resolveZeroDivisor (p q : DV16) : DV16 × DV16 × AstoMethod :=
  if 1 / 10 ^ 2 < ((p.asto5).mul q).normSq then (p.asto5, q, .methodA)
  else if 1 / 10 ^ 2 < (p.mul q.asto5).normSq then (p, q.asto5, .methodB)
  else (p, q, .methodFail)

/-- `DV16.__init__` on an `int`/`float` argument:
`[float(components)] + [0.0] * 15`. -/
def dv16InitScalar (s : ℚ) : List ℚ := [s] ++ List.replicate 15 0

/-- `DV16.__init__` of `src/dv16/dv16.py` on a component list: accepted
unchanged when the length is exactly 16, otherwise
`raise ValueError("DV16 requires exactly 16 components")`. -/
def dv16InitList (l : List ℚ) : Option (List ℚ) :=
  if l.length = 16 then some l else none

/-- `TitanSedenion.__init__` of `src/dv16/dv16_titan.py`:
`if len(c) < 16: c += [Decimal(0)] * (16 - len(c))`. -/
def titanInitList (l : List ℚ) : List ℚ :=
  if l.length < 16 then l ++ List.replicate (16 - l.length) 0 else l

/-- `Octonion.__init__` of `src/dv16/dv16.py`:
`if len(c) < 8: c += [0.0] * (8 - len(c))`. -/
def octoInitList (l : List ℚ) : List ℚ :=
  if l.length < 8 then l ++ List.replicate (8 - l.length) 0 else l

/-! ## Helper lemmas -/

/-- Evaluation aid: the cast sign of a positive table entry is `1`. -/
lemma octSignQ_pos (i j : Fin 8) (h : 0 < octTable i j) :
    ((octTable i j).sign : ℚ) = 1 := by
  rw [Int.sign_eq_one_of_pos h]; norm_num

/-- Evaluation aid: the cast sign of a negative table entry is `-1`. -/
lemma octSignQ_neg (i j : Fin 8) (h : octTable i j < 0) :
    ((octTable i j).sign : ℚ) = -1 := by
  rw [Int.sign_eq_neg_one_of_neg h]; norm_num

/-- The squared norm of a `DV2` vanishes only on the zero vector. -/
lemma dv2_normSq_eq_zero_iff (p : DV2) : p.normSq = 0 ↔ p = DV2.zero := by
  constructor
  · intro h
    simp only [DV2.normSq] at h
    have hv : p.v = 0 := by nlinarith [sq_nonneg p.v, sq_nonneg p.d]
    have hd : p.d = 0 := by nlinarith [sq_nonneg p.v, sq_nonneg p.d]
    ext <;> simp [DV2.zero, hv, hd]
  · intro h; subst h; simp [DV2.normSq, DV2.zero]

/-- The squared norm of a `DV4` vanishes only on the zero vector. -/
lemma dv4_normSq_eq_zero_iff (p : DV4) : p.normSq = 0 ↔ p = DV4.zero := by
  constructor
  · intro h
    simp only [DV4.normSq] at h
    have hv : p.v = 0 := by
      nlinarith [sq_nonneg p.v, sq_nonneg p.d1, sq_nonneg p.d2, sq_nonneg p.d3]
    have h1 : p.d1 = 0 := by
      nlinarith [sq_nonneg p.v, sq_nonneg p.d1, sq_nonneg p.d2, sq_nonneg p.d3]
    have h2 : p.d2 = 0 := by
      nlinarith [sq_nonneg p.v, sq_nonneg p.d1, sq_nonneg p.d2, sq_nonneg p.d3]
    have h3 : p.d3 = 0 := by
      nlinarith [sq_nonneg p.v, sq_nonneg p.d1, sq_nonneg p.d2, sq_nonneg p.d3]
    ext <;> simp [DV4.zero, hv, h1, h2, h3]
  · intro h; subst h; simp [DV4.normSq, DV4.zero]

/-- The squared norm of a `DV8` vanishes only on the zero vector. -/
lemma dv8_normSq_eq_zero_iff (p : DV8) : p.normSq = 0 ↔ p = DV8.zero := by
  constructor
  · intro h
    have h2 := (Finset.sum_eq_zero_iff_of_nonneg
      (fun i _ => sq_nonneg (p.c i))).mp h
    ext i
    have h3 : p.c i ^ 2 = 0 := h2 i (Finset.mem_univ i)
    have h4 : p.c i = 0 := by
      exact pow_eq_zero_iff (two_ne_zero) |>.mp h3
    simpa [DV8.zero] using h4
  · intro h; subst h; simp [DV8.normSq, DV8.zero]

/-- Multiplicativity of the squared norm for the `DV2` product
(Brahmagupta two-square identity). -/
lemma dv2_normSq_mul (p q : DV2) :
    (p.mul q).normSq = p.normSq * q.normSq := by
  simp only [DV2.mul, DV2.normSq]; ring

/-- Multiplicativity of the squared norm for the `DV4` Hamilton product
(Euler four-square identity). -/
lemma dv4_normSq_mul (p q : DV4) :
    (p.mul q).normSq = p.normSq * q.normSq := by
  simp only [DV4.mul, DV4.normSq]; ring

/-- Multiplicativity of the squared norm for the `DV8` structure-table
product (Degen eight-square identity). -/
lemma dv8_normSq_mul (p q : DV8) :
    (p.mul q).normSq = p.normSq * q.normSq := by
  simp +decide only [DV8.mul, DV8.normSq, Fin.sum_univ_eight, octSignQ_pos,
    octSignQ_neg, if_true, if_false]
  ring

/-- The `DV2` product is homogeneous in a scalar factor of the right operand. -/
lemma dv2_mul_smul_right (p x : DV2) (t : ℚ) :
    p.mul (x.smul t) = (p.mul x).smul t := by
  simp only [DV2.mul, DV2.smul]; ext <;> ring

/-- The `DV4` product is homogeneous in a scalar factor of the right operand. -/
lemma dv4_mul_smul_right (p x : DV4) (t : ℚ) :
    p.mul (x.smul t) = (p.mul x).smul t := by
  simp only [DV4.mul, DV4.smul]; ext <;> ring

/-- The `DV8` product is homogeneous in a scalar factor of the right operand. -/
lemma dv8_mul_smul_right (p x : DV8) (t : ℚ) :
    p.mul (x.smul t) = (p.mul x).smul t := by
  ext k
  fin_cases k <;>
  · simp +decide only [DV8.mul, DV8.smul, Fin.sum_univ_eight, octSignQ_pos,
      octSignQ_neg, if_true, if_false]
    ring

set_option maxHeartbeats 1000000 in
/-- The sedenion product is homogeneous in a scalar divisor of the right
operand. -/
lemma DV16.mul_divScalar_right (p x : DV16) (t : ℚ) :
    p.mul (x.divScalar t) = (p.mul x).divScalar t := by
  ext <;>
  · simp only [DV16.mul, DV16.divScalar, Octo.mul, Octo.divScalar, Octo.add,
      Octo.sub, Octo.conjugate, Quat.mul, Quat.divScalar, Quat.add, Quat.sub,
      Quat.conjugate, Quat.neg]
    ring

/-- A `DV2` times its conjugate is the scalar `‖p‖²`. -/
lemma dv2_mul_conj_self (p : DV2) :
    p.mul p.conjugate = DV2.scalar p.normSq := by
  simp only [DV2.mul, DV2.conjugate, DV2.scalar, DV2.normSq]
  ext <;> ring

/-- A `DV4` times its conjugate is the scalar `‖p‖²`. -/
lemma dv4_mul_conj_self (p : DV4) :
    p.mul p.conjugate = DV4.scalar p.normSq := by
  simp only [DV4.mul, DV4.conjugate, DV4.scalar, DV4.normSq]
  ext <;> ring

/-- A `DV8` times its conjugate is the scalar `‖p‖²`. -/
lemma dv8_mul_conj_self (p : DV8) :
    p.mul p.conjugate = DV8.scalar p.normSq := by
  ext k
  fin_cases k <;>
  · simp +decide only [DV8.mul, DV8.conjugate, DV8.scalar, DV8.normSq,
      Fin.sum_univ_eight, octSignQ_pos, octSignQ_neg, if_true, if_false]
    ring

set_option maxHeartbeats 1000000 in
/-- A sedenion times its conjugate is the scalar `‖p‖²`. -/
lemma dv16_mul_conj_self (p : DV16) :
    p.mul p.conjugate = DV16.scalar p.normSq := by
  ext <;>
  · simp only [DV16.mul, DV16.conjugate, DV16.scalar, DV16.normSq, Octo.mul,
      Octo.add, Octo.sub, Octo.conjugate, Octo.neg, Octo.normSq, Octo.zero,
      Quat.mul, Quat.conjugate, Quat.neg, Quat.add, Quat.sub, Quat.normSq]
    ring

/-- `A · A⁻¹ = 1` for every `DV2` of nonzero squared norm. -/
lemma dv2_mul_inverse_self (p : DV2) (h : p.normSq ≠ 0) :
    p.mul p.inverse = DV2.one := by
  rw [DV2.inverse, dv2_mul_smul_right, dv2_mul_conj_self]
  simp only [DV2.scalar, DV2.smul, DV2.one]
  ext <;> field_simp

/-- `A · A⁻¹ = 1` for every `DV4` of nonzero squared norm. -/
lemma dv4_mul_inverse_self (p : DV4) (h : p.normSq ≠ 0) :
    p.mul p.inverse = DV4.one := by
  rw [DV4.inverse, dv4_mul_smul_right, dv4_mul_conj_self]
  simp only [DV4.scalar, DV4.smul, DV4.one]
  ext <;> field_simp

/-- `A · A⁻¹ = 1` for every `DV8` of nonzero squared norm. -/
lemma dv8_mul_inverse_self (p : DV8) (h : p.normSq ≠ 0) :
    p.mul p.inverse = DV8.one := by
  rw [DV8.inverse, dv8_mul_smul_right, dv8_mul_conj_self]
  simp only [DV8.scalar, DV8.smul, DV8.one]
  ext k
  fin_cases k <;> simp +decide only [if_true, if_false] <;> field_simp

/-- `A · A⁻¹ = 1` for every sedenion of nonzero squared norm. -/
lemma dv16_mul_inverse_self (p : DV16) (h : p.normSq ≠ 0) :
    p.mul p.inverse = DV16.one := by
  rw [DV16.inverse, DV16.mul_divScalar_right, dv16_mul_conj_self]
  simp only [DV16.scalar, DV16.divScalar, DV16.one, Octo.divScalar, Octo.zero,
    Quat.divScalar]
  ext <;> field_simp

/-- Left multiplication of an octonion by the unit `e₁` preserves the
squared norm (octonions form a composition algebra). -/
lemma Octo.normSq_e1_mul (x : Octo) : (Octo.e1.mul x).normSq = x.normSq := by
  simp only [Octo.mul, Octo.e1, Octo.normSq, Octo.conjugate, Quat.mul,
    Quat.conjugate, Quat.neg, Quat.add, Quat.sub, Quat.normSq]
  ring

/-- `ASTO₅` preserves the squared norm of every sedenion. -/
lemma DV16.asto5_normSq (p : DV16) : (p.asto5).normSq = p.normSq := by
  simp only [DV16.asto5, DV16.normSq]
  rw [Octo.normSq_e1_mul]

set_option maxHeartbeats 1000000 in
/-- `e₀ = (1, 0, ..., 0)` is a left identity of the sedenion product. -/
lemma DV16.one_mul_left (p : DV16) : DV16.one.mul p = p := by
  simp only [DV16.mul, DV16.one, Octo.mul, Octo.conjugate, Octo.neg, Octo.add,
    Octo.sub, Octo.zero, Quat.mul, Quat.conjugate, Quat.neg, Quat.add,
    Quat.sub]
  ext <;> ring

set_option maxHeartbeats 1000000 in
/-- `e₀ = (1, 0, ..., 0)` is a right identity of the sedenion product. -/
lemma DV16.mul_one_right (p : DV16) : p.mul DV16.one = p := by
  simp only [DV16.mul, DV16.one, Octo.mul, Octo.conjugate, Octo.neg, Octo.add,
    Octo.sub, Octo.zero, Quat.mul, Quat.conjugate, Quat.neg, Quat.add,
    Quat.sub]
  ext <;> ring

/-- The basis vector `e 0` is the multiplicative identity vector. -/
lemma e_zero_eq_one : e 0 = DV16.one := by
  simp +decide only [e, DV16.ofComponents, DV16.one, Octo.zero]

/-- Squared norm of the canonical `A = e₁ + e₁₀`. -/
lemma Azd_normSq : Azd.normSq = 2 := by
  simp +decide only [Azd, e, DV16.ofComponents, DV16.add, Octo.add, Quat.add,
    DV16.normSq, Octo.normSq, Quat.normSq]
  norm_num

/-- Squared norm of the canonical `B = e₅ + e₁₄`. -/
lemma Bzd_normSq : Bzd.normSq = 2 := by
  simp +decide only [Bzd, e, DV16.ofComponents, DV16.add, Octo.add, Quat.add,
    DV16.normSq, Octo.normSq, Quat.normSq]
  norm_num

/-- The canonical pair annihilates: `‖A·B‖² = 0` exactly. -/
lemma Azd_mul_Bzd_normSq : (Azd.mul Bzd).normSq = 0 := by
  simp +decide only [Azd, Bzd, e, DV16.ofComponents, DV16.add, Octo.add,
    Quat.add, DV16.mul, Octo.mul, Quat.mul, Octo.conjugate, Quat.conjugate,
    Quat.neg, Octo.sub, Quat.sub, DV16.normSq, Octo.normSq, Quat.normSq]
  norm_num

/-- After ASTO₅ on `A`, the product with `B` has squared norm `4`. -/
lemma asto5_Azd_mul_Bzd_normSq : ((Azd.asto5).mul Bzd).normSq = 4 := by
  simp +decide only [Azd, Bzd, e, DV16.ofComponents, DV16.add, DV16.asto5,
    Octo.e1, Octo.add, Quat.add, DV16.mul, Octo.mul, Quat.mul, Octo.conjugate,
    Quat.conjugate, Quat.neg, Octo.sub, Quat.sub, DV16.normSq, Octo.normSq,
    Quat.normSq]
  norm_num

/-! ## Claim theorems -/

/-- C1: For the dimension-16 pair `A = e₁ + e₁₀` and `B = e₅ + e₁₄` (basis
vectors of the sedenion algebra), the Cayley-Dickson product `A·B` has norm
strictly below `1e-10` — stated on squared norms, `‖A·B‖² < (1e-10)²`
(over exact arithmetic the squared norm is exactly `0`) — while the norms
of `A` and `B` are each strictly above `0.1` (`‖A‖², ‖B‖² > 0.01`): nonzero
zero divisors exist at dimension 16. -/
theorem sedenion_zero_divisor_pair :
    (Azd.mul Bzd).normSq < (1 / 10 ^ 10) ^ 2 ∧
    (1 / 10) ^ 2 < Azd.normSq ∧ (1 / 10) ^ 2 < Bzd.normSq := by
  refine ⟨?_, ?_, ?_⟩
  · rw [Azd_mul_Bzd_normSq]; norm_num
  · rw [Azd_normSq]; norm_num
  · rw [Bzd_normSq]; norm_num

/-- C3: For the canonical zero-divisor pair `A = e₁ + e₁₀`, `B = e₅ + e₁₄`,
step 1 of the adaptive resolution policy succeeds with method "A": the
product `asto5(A) · B`, where `asto5` left-multiplies only the first
octonion half of `A` by `e₁`, has norm strictly above `0.1` (squared norm
above `0.01`; here it is exactly `4`), so `resolveZeroDivisor` returns
`(asto5(A), B)` with method "A". -/
theorem resolve_canonical_pair_method_A :
    resolveZeroDivisor Azd Bzd = (Azd.asto5, Bzd, AstoMethod.methodA) ∧
    (1 / 10) ^ 2 < ((Azd.asto5).mul Bzd).normSq := by
  have h : (1 : ℚ) / 10 ^ 2 < ((Azd.asto5).mul Bzd).normSq := by
    rw [asto5_Azd_mul_Bzd_normSq]; norm_num
  exact ⟨by rw [resolveZeroDivisor, if_pos h], by
    rw [asto5_Azd_mul_Bzd_normSq]; norm_num⟩

/-- C6 (counterexample): the claim asserts some dimension-16 vector `S` has
`‖asto5(S)‖ ≠ ‖S‖`; no such vector exists, because left multiplication of
the first octonion half by the unit `e₁` is norm-preserving (octonions are
a composition algebra), so `asto5` preserves the norm of every vector. -/
theorem asto5_norm_change_impossible :
    ¬ ∃ S : DV16, (S.asto5).normSq ≠ S.normSq :=
  fun ⟨S, hS⟩ => hS (DV16.asto5_normSq S)

/-- C6 (amended): the ASTO operator `asto5(S) = (e₁·a, b)` preserves the
norm of every dimension-16 vector `S` exactly: `‖asto5(S)‖² = ‖S‖²` — like
the dimension ≤ 8 rotation operator, it is norm-preserving. -/
theorem asto5_preserves_norm : ∀ S : DV16, (S.asto5).normSq = S.normSq :=
  DV16.asto5_normSq

/-- C10: The basis element `e₀ = (1, 0, ..., 0)` is a two-sided
multiplicative identity of the dimension-16 Cayley-Dickson multiplication:
`e₀·A = A` and `A·e₀ = A` exactly for every 16-component vector `A` — even
though the multiplication is neither commutative (`e₁·e₂ ≠ e₂·e₁`) nor
associative (`(e₁·e₂)·e₄ ≠ e₁·(e₂·e₄)`). -/
theorem e0_two_sided_identity :
    (∀ A : DV16, (e 0).mul A = A ∧ A.mul (e 0) = A) ∧
    (e 1).mul (e 2) ≠ (e 2).mul (e 1) ∧
    ((e 1).mul (e 2)).mul (e 4) ≠ (e 1).mul ((e 2).mul (e 4)) := by
  refine ⟨fun A => ⟨?_, ?_⟩, ?_, ?_⟩
  · rw [e_zero_eq_one, DV16.one_mul_left]
  · rw [e_zero_eq_one, DV16.mul_one_right]
  · intro h
    have h3 := congrArg (fun X : DV16 => X.a.a.z) h
    simp +decide only [e, DV16.ofComponents, DV16.mul, Octo.mul, Octo.add,
      Octo.sub, Octo.conjugate, Octo.neg, Quat.mul, Quat.add, Quat.sub,
      Quat.conjugate, Quat.neg] at h3
    norm_num at h3
  · intro h
    have h7 := congrArg (fun X : DV16 => X.a.b.z) h
    simp +decide only [e, DV16.ofComponents, DV16.mul, Octo.mul, Octo.add,
      Octo.sub, Octo.conjugate, Octo.neg, Quat.mul, Quat.add, Quat.sub,
      Quat.conjugate, Quat.neg] at h7
    norm_num at h7

/-- C2: For every pair of nonzero vectors `A, B` of the same dimension
`N ∈ {2, 4, 8}`, the product `A·B` is nonzero and `‖A·B‖ = ‖A‖·‖B‖`
(stated on squared norms, which is equivalent since norms are
non-negative; the identity is exact over exact arithmetic), for the DV2,
DV4 (Hamilton) and DV8 (structure-table) multiplications. -/
theorem composition_property_dims_2_4_8 :
    (∀ p q : DV2, p ≠ DV2.zero → q ≠ DV2.zero →
      p.mul q ≠ DV2.zero ∧ (p.mul q).normSq = p.normSq * q.normSq) ∧
    (∀ p q : DV4, p ≠ DV4.zero → q ≠ DV4.zero →
      p.mul q ≠ DV4.zero ∧ (p.mul q).normSq = p.normSq * q.normSq) ∧
    (∀ p q : DV8, p ≠ DV8.zero → q ≠ DV8.zero →
      p.mul q ≠ DV8.zero ∧ (p.mul q).normSq = p.normSq * q.normSq) := by
  refine ⟨fun p q hp hq => ⟨?_, dv2_normSq_mul p q⟩,
          fun p q hp hq => ⟨?_, dv4_normSq_mul p q⟩,
          fun p q hp hq => ⟨?_, dv8_normSq_mul p q⟩⟩
  · intro h0
    have hz : (p.mul q).normSq = 0 := by
      rw [h0]; exact (dv2_normSq_eq_zero_iff _).mpr rfl
    rw [dv2_normSq_mul] at hz
    rcases mul_eq_zero.mp hz with h | h
    · exact hp ((dv2_normSq_eq_zero_iff p).mp h)
    · exact hq ((dv2_normSq_eq_zero_iff q).mp h)
  · intro h0
    have hz : (p.mul q).normSq = 0 := by
      rw [h0]; exact (dv4_normSq_eq_zero_iff _).mpr rfl
    rw [dv4_normSq_mul] at hz
    rcases mul_eq_zero.mp hz with h | h
    · exact hp ((dv4_normSq_eq_zero_iff p).mp h)
    · exact hq ((dv4_normSq_eq_zero_iff q).mp h)
  · intro h0
    have hz : (p.mul q).normSq = 0 := by
      rw [h0]; exact (dv8_normSq_eq_zero_iff _).mpr rfl
    rw [dv8_normSq_mul] at hz
    rcases mul_eq_zero.mp hz with h | h
    · exact hp ((dv8_normSq_eq_zero_iff p).mp h)
    · exact hq ((dv8_normSq_eq_zero_iff q).mp h)

/-- Witness for C2 at the concrete nonzero pairs `(3,4)·(1,2)` in DV2,
`(1,2,3,4)·1` in DV4 and `1·1` in DV8. -/
theorem composition_property_dims_2_4_8_witness :
    DV2.mul ⟨3, 4⟩ ⟨1, 2⟩ ≠ DV2.zero ∧
    (DV2.mul ⟨3, 4⟩ ⟨1, 2⟩).normSq = DV2.normSq ⟨3, 4⟩ * DV2.normSq ⟨1, 2⟩ ∧
    DV4.mul ⟨1, 2, 3, 4⟩ DV4.one ≠ DV4.zero ∧
    DV8.mul DV8.one DV8.one ≠ DV8.zero := by
  obtain ⟨ha, hb⟩ := composition_property_dims_2_4_8.1 ⟨3, 4⟩ ⟨1, 2⟩
    (by norm_num [DV2.zero]) (by norm_num [DV2.zero])
  obtain ⟨hc, -⟩ := composition_property_dims_2_4_8.2.1 ⟨1, 2, 3, 4⟩ DV4.one
    (by norm_num [DV4.zero]) (by norm_num [DV4.one, DV4.zero])
  obtain ⟨hd, -⟩ := composition_property_dims_2_4_8.2.2 DV8.one DV8.one
    (by
      intro h
      have h0 := congrArg (fun X : DV8 => X.c 0) h
      simp +decide only [DV8.one, DV8.zero, if_true, if_false] at h0)
    (by
      intro h
      have h0 := congrArg (fun X : DV8 => X.c 0) h
      simp +decide only [DV8.one, DV8.zero, if_true, if_false] at h0)
  exact ⟨ha, hb, hc, hd⟩

set_option maxHeartbeats 2000000 in
/-- C5: For every pair of 8-component vectors, the structure-table octonion
multiplication of DV8 (driven by the `OCT_TABLE` Fano-plane constants)
equals the recursive Cayley-Dickson octonion multiplication
`(a,b) × (c,d) = (ac − d*b, da + bc*)` built from pairs of quaternions,
components being matched in order. -/
theorem dv8_table_mul_matches_cayley_dickson :
    ∀ p q : Octo, (p.mul q).toDV8 = DV8.mul p.toDV8 q.toDV8 := by
  intro p q
  ext k
  fin_cases k <;>
  · simp +decide only [Octo.toDV8, DV8.mul, Octo.mul, Octo.add, Octo.sub,
      Octo.conjugate, Octo.neg, Quat.mul, Quat.conjugate, Quat.neg, Quat.add,
      Quat.sub, Fin.sum_univ_eight, octSignQ_pos, octSignQ_neg, if_true,
      if_false]
    ring

/-- C7: For every vector `A` of dimension 2, 4, 8 or 16 with nonzero
(squared) norm — in particular every `A` with `‖A‖` above the code's
epsilon — the product `A · inverse(A)` equals the multiplicative identity
`(1, 0, ..., 0)` exactly, where `inverse(A) = conjugate(A) / ‖A‖²`. -/
theorem inverse_round_trip :
    (∀ p : DV2, p.normSq ≠ 0 → p.mul p.inverse = DV2.one) ∧
    (∀ p : DV4, p.normSq ≠ 0 → p.mul p.inverse = DV4.one) ∧
    (∀ p : DV8, p.normSq ≠ 0 → p.mul p.inverse = DV8.one) ∧
    (∀ p : DV16, p.normSq ≠ 0 → p.mul p.inverse = DV16.one) :=
  ⟨dv2_mul_inverse_self, dv4_mul_inverse_self, dv8_mul_inverse_self,
   dv16_mul_inverse_self⟩

/-- Witness for C7 at the concrete vectors `(3,4)`, `(1,1,1,1)`, the DV8
identity and the sedenion `A = e₁ + e₁₀`. -/
theorem inverse_round_trip_witness :
    DV2.mul ⟨3, 4⟩ (DV2.inverse ⟨3, 4⟩) = DV2.one ∧
    DV4.mul ⟨1, 1, 1, 1⟩ (DV4.inverse ⟨1, 1, 1, 1⟩) = DV4.one ∧
    DV8.mul DV8.one (DV8.inverse DV8.one) = DV8.one ∧
    Azd.mul Azd.inverse = DV16.one :=
  ⟨inverse_round_trip.1 ⟨3, 4⟩ (by norm_num [DV2.normSq]),
   inverse_round_trip.2.1 ⟨1, 1, 1, 1⟩ (by norm_num [DV4.normSq]),
   inverse_round_trip.2.2.1 DV8.one (by
     simp +decide only [DV8.normSq, DV8.one, Fin.sum_univ_eight, if_true,
       if_false]
     norm_num),
   inverse_round_trip.2.2.2 Azd (by rw [Azd_normSq]; norm_num)⟩

/-- C8: The inverse operation fails (raises, i.e. returns `none` in the
embedding) exactly when the squared norm is below the fixed epsilon —
strictly below `1e-20` at dimension 16, and at or below the `np.isclose`
absolute tolerance `1e-30` for DV2 — and for every vector above that
threshold it returns `conjugate(A)/‖A‖²` without error. -/
theorem inverse_error_exactly_below_epsilon :
    (∀ p : DV16, p.inverseChecked = none ↔ p.normSq < 1 / 10 ^ 20) ∧
    (∀ p : DV16, ¬ p.normSq < 1 / 10 ^ 20 →
      p.inverseChecked = some (p.conjugate.divScalar p.normSq)) ∧
    (∀ p : DV2, p.inverseChecked = none ↔ p.normSq ≤ 1 / 10 ^ 30) ∧
    (∀ p : DV2, ¬ p.normSq ≤ 1 / 10 ^ 30 →
      p.inverseChecked = some (p.conjugate.smul (1 / p.normSq))) := by
  refine ⟨fun p => ?_, fun p h => ?_, fun p => ?_, fun p h => ?_⟩
  · rw [DV16.inverseChecked]; split <;> simp_all
  · rw [DV16.inverseChecked, if_neg h, DV16.inverse]
  · rw [DV2.inverseChecked]; split <;> simp_all
  · rw [DV2.inverseChecked, if_neg h, DV2.inverse]

/-- Witness for C8 at the zero vectors (failure side) and at `A = e₁ + e₁₀`
and `(3,4)` (success side). -/
theorem inverse_error_exactly_below_epsilon_witness :
    DV16.zero.inverseChecked = none ∧
    Azd.inverseChecked = some (Azd.conjugate.divScalar Azd.normSq) ∧
    DV2.zero.inverseChecked = none ∧
    DV2.inverseChecked ⟨3, 4⟩ =
      some ((DV2.conjugate ⟨3, 4⟩).smul (1 / DV2.normSq ⟨3, 4⟩)) :=
  ⟨(inverse_error_exactly_below_epsilon.1 DV16.zero).mpr (by
      simp only [DV16.normSq, DV16.zero, Octo.normSq, Octo.zero, Quat.normSq]
      norm_num),
   inverse_error_exactly_below_epsilon.2.1 Azd (by rw [Azd_normSq]; norm_num),
   (inverse_error_exactly_below_epsilon.2.2.1 DV2.zero).mpr (by
      norm_num [DV2.normSq, DV2.zero]),
   inverse_error_exactly_below_epsilon.2.2.2 ⟨3, 4⟩ (by
      norm_num [DV2.normSq])⟩

/-- The hidden-zero-divisor quotient: `A · B⁻¹` also annihilates for the
canonical pair (`conjugate(B) = −B` here), squared norm exactly `0`. -/
lemma Azd_mul_Bzd_inv_normSq : (Azd.mul Bzd.inverse).normSq = 0 := by
  simp +decide only [Azd, Bzd, e, DV16.ofComponents, DV16.add, DV16.mul,
    DV16.inverse, DV16.conjugate, DV16.normSq, DV16.divScalar, Octo.add,
    Octo.sub, Octo.mul, Octo.conjugate, Octo.neg, Octo.normSq, Octo.divScalar,
    Quat.add, Quat.sub, Quat.mul, Quat.conjugate, Quat.neg, Quat.normSq,
    Quat.divScalar]
  norm_num

/-- Dividing `A = e₁ + e₁₀` by the basis vector `e₀` keeps squared norm 2. -/
lemma Azd_mul_e0_inv_normSq : (Azd.mul (e 0).inverse).normSq = 2 := by
  simp +decide only [Azd, e, DV16.ofComponents, DV16.add, DV16.mul,
    DV16.inverse, DV16.conjugate, DV16.normSq, DV16.divScalar, Octo.add,
    Octo.sub, Octo.mul, Octo.conjugate, Octo.neg, Octo.normSq, Octo.divScalar,
    Quat.add, Quat.sub, Quat.mul, Quat.conjugate, Quat.neg, Quat.normSq,
    Quat.divScalar]
  norm_num

/-- C4: For every dimension-16 division `A / B`: if `B` is the zero vector
(or a scalar below epsilon) the result is `asto5(A)`; if `B` is nonzero
(hence invertible) but the quotient `A·B⁻¹` is numerically zero while `A`
is nonzero, the result is `asto5(A)·B⁻¹` rather than the spurious zero;
otherwise the result is `A·B⁻¹`.  The division is a total function — every
reachable state returns one of these vectors, never a raised exception
(the `except ValueError` branch is unreachable because `is_zero` and the
`inverse` guard test the same `1e-20` threshold). -/
theorem division_fallback_dim16 :
    (∀ p q : DV16, q.IsZero → p.truediv q = p.asto5) ∧
    (∀ (p : DV16) (s : ℚ), |s| < 1 / 10 ^ 10 → p.truedivScalar s = p.asto5) ∧
    (∀ p q : DV16, ¬ q.IsZero → (p.mul q.inverse).IsZero → ¬ p.IsZero →
      p.truediv q = (p.asto5).mul q.inverse) ∧
    (∀ p q : DV16, ¬ q.IsZero → ¬ ((p.mul q.inverse).IsZero ∧ ¬ p.IsZero) →
      p.truediv q = p.mul q.inverse) := by
  have hinv : ∀ q : DV16, ¬ q.IsZero → q.inverseChecked = some q.inverse :=
    fun q hq => by
      rw [DV16.inverseChecked, if_neg (show ¬ q.normSq < 1 / 10 ^ 20 from hq)]
  refine ⟨fun p q hq => ?_, fun p s hs => ?_,
    fun p q hq h1 h2 => ?_, fun p q hq hn => ?_⟩
  · rw [DV16.truediv, if_pos hq]
  · rw [DV16.truedivScalar, if_pos hs]
  · rw [DV16.truediv, if_neg hq, hinv q hq]
    exact if_pos ⟨h1, h2⟩
  · rw [DV16.truediv, if_neg hq, hinv q hq]
    exact if_neg hn

/-- Witness for C4: all four branches exercised concretely with
`A = e₁ + e₁₀`, the zero divisor `B = e₅ + e₁₄`, and `e₀`. -/
theorem division_fallback_dim16_witness :
    Azd.truediv DV16.zero = Azd.asto5 ∧
    Azd.truedivScalar 0 = Azd.asto5 ∧
    Azd.truediv Bzd = (Azd.asto5).mul Bzd.inverse ∧
    Azd.truediv (e 0) = Azd.mul (e 0).inverse := by
  have hz : DV16.zero.IsZero := by
    show DV16.zero.normSq < 1 / 10 ^ 20
    simp only [DV16.normSq, DV16.zero, Octo.normSq, Octo.zero, Quat.normSq]
    norm_num
  have hA : ¬ Azd.IsZero := by
    show ¬ Azd.normSq < 1 / 10 ^ 20
    rw [Azd_normSq]; norm_num
  have hB : ¬ Bzd.IsZero := by
    show ¬ Bzd.normSq < 1 / 10 ^ 20
    rw [Bzd_normSq]; norm_num
  have hq0 : (Azd.mul Bzd.inverse).IsZero := by
    show (Azd.mul Bzd.inverse).normSq < 1 / 10 ^ 20
    rw [Azd_mul_Bzd_inv_normSq]; norm_num
  have he0 : ¬ (e 0).IsZero := by
    show ¬ (e 0).normSq < 1 / 10 ^ 20
    simp +decide only [e, DV16.ofComponents, DV16.normSq, Octo.normSq,
      Quat.normSq]
    norm_num
  have hne : ¬ ((Azd.mul (e 0).inverse).IsZero ∧ ¬ Azd.IsZero) := by
    rintro ⟨hc, -⟩
    have hc2 : (Azd.mul (e 0).inverse).normSq < 1 / 10 ^ 20 := hc
    rw [Azd_mul_e0_inv_normSq] at hc2
    norm_num at hc2
  exact ⟨division_fallback_dim16.1 Azd DV16.zero hz,
    division_fallback_dim16.2.1 Azd 0 (by norm_num),
    division_fallback_dim16.2.2.1 Azd Bzd hB hq0 hA,
    division_fallback_dim16.2.2.2 Azd (e 0) he0 hne⟩

/-- C9 (counterexample): the claim says a dimension-16 construction from
fewer than 16 values zero-pads; but `DV16.__init__` of `src/dv16/dv16.py`
raises `ValueError` on the 3-element list `[1, 2, 3]` instead of returning
the zero-padded 16-component vector. -/
theorem dv16_short_list_not_zero_padded :
    dv16InitList [1, 2, 3] ≠ some ([1, 2, 3] ++ List.replicate 13 (0 : ℚ)) := by
  rw [dv16InitList, if_neg (by decide)]
  exact fun h => Option.noConfusion h

/-- C9 (amended): the scalar form of the dimension-16 constructor
zero-pads (`[s] + 15 zeros`), and the Titan sedenion and Octonion
constructors zero-pad any shorter component list with trailing zeros; but
the `dv16.py` `DV16` list constructor accepts exactly 16 components and
fails fast (`ValueError`, an InvalidDimension-style error) on every other
list length — it never silently truncates or pads a short list. -/
theorem construction_zero_pad_rules :
    (∀ s : ℚ, dv16InitScalar s = [s] ++ List.replicate 15 0) ∧
    (∀ l : List ℚ, l.length = 16 → dv16InitList l = some l) ∧
    (∀ l : List ℚ, l.length ≠ 16 → dv16InitList l = none) ∧
    (∀ l : List ℚ, l.length ≤ 16 →
      titanInitList l = l ++ List.replicate (16 - l.length) 0) ∧
    (∀ l : List ℚ, l.length ≤ 8 →
      octoInitList l = l ++ List.replicate (8 - l.length) 0) := by
  refine ⟨fun s => rfl, fun l h => by rw [dv16InitList, if_pos h],
    fun l h => by rw [dv16InitList, if_neg h], fun l h => ?_, fun l h => ?_⟩
  · rcases lt_or_eq_of_le h with h' | h'
    · rw [titanInitList, if_pos h']
    · rw [titanInitList, if_neg (by rw [h']; exact lt_irrefl 16)]
      rw [h']
      simp
  · rcases lt_or_eq_of_le h with h' | h'
    · rw [octoInitList, if_pos h']
    · rw [octoInitList, if_neg (by rw [h']; exact lt_irrefl 8)]
      rw [h']
      simp

/-- Witness for C9 (amended) at concrete inputs: a scalar, a short list
rejected by `DV16`, and short lists padded by the Titan and Octonion
constructors. -/
theorem construction_zero_pad_rules_witness :
    dv16InitScalar 7 = [7] ++ List.replicate 15 0 ∧
    dv16InitList [1, 2, 3] = none ∧
    titanInitList [1, 2] = [1, 2] ++ List.replicate 14 0 ∧
    octoInitList [5] = [5] ++ List.replicate 7 0 :=
  ⟨construction_zero_pad_rules.1 7,
   construction_zero_pad_rules.2.2.1 [1, 2, 3] (by decide),
   construction_zero_pad_rules.2.2.2.1 [1, 2] (by decide),
   construction_zero_pad_rules.2.2.2.2 [5] (by decide)⟩
